import Mathlib

/-!
Verification of the Game of Life core (`Grid` in `life.py`).

The grid stores a `size` and the set of currently-on cells as a set of
integer coordinate pairs.  `neighbours` computes the eight toroidally
wrapped neighbour coordinates of a cell (excluding the cell itself) via
`%` on each offset row and column; `update` advances one generation:
on cells with exactly 2 or 3 on-neighbours survive, and off neighbours
of on cells with exactly 3 on-neighbours are born.  Python's `%` on a
positive divisor agrees with `Int.emod`, so machine integers are
modelled by `ℤ`, and Python sets by `Finset`.
-/

namespace Life

/-- The grid state: `size` (rows = columns) and the set of on cells,
mirroring `Grid.__init__` in `life.py` (which stores `size` and an
initially empty `on_cells` set). -/
structure Grid where
  size : ℤ
  on_cells : Finset (ℤ × ℤ)
deriving DecidableEq

/-- `Grid.turn_on`: `self.on_cells = self.on_cells.union(cells)`. -/
def Grid.turn_on (g : Grid) (cells : Finset (ℤ × ℤ)) : Grid :=
  { g with on_cells := g.on_cells ∪ cells }

/-- `Grid.turn_off`: `self.on_cells = self.on_cells.difference(cells)`. -/
def Grid.turn_off (g : Grid) (cells : Finset (ℤ × ℤ)) : Grid :=
  { g with on_cells := g.on_cells \ cells }

/-- `Grid.neighbours`: the double loop over
`((r-1) % size, r, (r+1) % size)` × `((c-1) % size, c, (c+1) % size)`,
skipping `(r, c)` itself, collected into a set. -/
def Grid.neighbours (g : Grid) (cell : ℤ × ℤ) : Finset (ℤ × ℤ) :=
  (({(cell.1 - 1) % g.size, cell.1, (cell.1 + 1) % g.size} : Finset ℤ) ×ˢ
   ({(cell.2 - 1) % g.size, cell.2, (cell.2 + 1) % g.size} : Finset ℤ)).erase cell

/-- `Grid.on_neighbours`: `self.on_cells.intersection(self.neighbours(cell))`. -/
def Grid.on_neighbours (g : Grid) (cell : ℤ × ℤ) : Finset (ℤ × ℤ) :=
  g.on_cells ∩ g.neighbours cell

/-- `Grid.update`: survivors are on cells whose `nbrs.intersection(on_cells)`
has size 2 or 3; the candidate birth set accumulates
`nbrs.difference(on_nbrs)` over all on cells; births are candidates whose
`on_neighbours` count is exactly 3.  The new generation replaces `on_cells`. -/
def Grid.update (g : Grid) : Grid :=
  { g with on_cells :=
      g.on_cells.filter (fun cell =>
        (g.neighbours cell ∩ g.on_cells).card = 2 ∨
        (g.neighbours cell ∩ g.on_cells).card = 3) ∪
      (g.on_cells.biUnion (fun cell =>
        g.neighbours cell \ (g.neighbours cell ∩ g.on_cells))).filter (fun cell =>
        (g.on_neighbours cell).card = 3) }

/-- A coordinate pair lies on the grid: `0 <= row < size` and
`0 <= col < size` (data-model invariant of the spec). -/
@[reducible] def InRange (g : Grid) (p : ℤ × ℤ) : Prop :=
  0 ≤ p.1 ∧ p.1 < g.size ∧ 0 ≤ p.2 ∧ p.2 < g.size

/-- Wrap-free Moore neighbourhood on the unbounded integer grid. -/
def nbrsZ (cell : ℤ × ℤ) : Finset (ℤ × ℤ) :=
  (({cell.1 - 1, cell.1, cell.1 + 1} : Finset ℤ) ×ˢ
   ({cell.2 - 1, cell.2, cell.2 + 1} : Finset ℤ)).erase cell

/-- Wrap-free one-generation step, shaped exactly like `Grid.update`. -/
def stepZ (S : Finset (ℤ × ℤ)) : Finset (ℤ × ℤ) :=
  S.filter (fun cell =>
    (nbrsZ cell ∩ S).card = 2 ∨ (nbrsZ cell ∩ S).card = 3) ∪
  (S.biUnion (fun cell => nbrsZ cell \ (nbrsZ cell ∩ S))).filter (fun cell =>
    (S ∩ nbrsZ cell).card = 3)

lemma sub_one_emod (N a : ℤ) (h0 : 0 ≤ a) (h1 : a < N) :
    (a - 1) % N = if a = 0 then N - 1 else a - 1 := by
  split_ifs with h
  · subst h
    have h2 : (0 : ℤ) - 1 = (N - 1) + N * (-1) := by ring
    rw [h2, Int.add_mul_emod_self_left, Int.emod_eq_of_lt (by omega) (by omega)]
  · exact Int.emod_eq_of_lt (by omega) (by omega)

lemma add_one_emod (N a : ℤ) (h0 : 0 ≤ a) (h1 : a < N) :
    (a + 1) % N = if a = N - 1 then 0 else a + 1 := by
  split_ifs with h
  · have h2 : a + 1 = N := by omega
    rw [h2, Int.emod_self]
  · exact Int.emod_eq_of_lt (by omega) (by omega)

/-- For in-range values, membership in a wrapped offset triple is a
purely linear condition. -/
lemma rowWrap_iff (N a b : ℤ) (h0 : 0 ≤ a) (h1 : a < N) (h2 : 0 ≤ b) (h3 : b < N) :
    (b = (a - 1) % N ∨ b = a ∨ b = (a + 1) % N) ↔
      (b = a - 1 ∨ b = a ∨ b = a + 1 ∨ b = a - 1 + N ∨ b = a + 1 - N) := by
  rw [sub_one_emod N a h0 h1, add_one_emod N a h0 h1]
  split_ifs <;> omega

lemma mem_neighbours (g : Grid) (x y : ℤ × ℤ) :
    y ∈ g.neighbours x ↔ y ≠ x ∧
      (y.1 = (x.1 - 1) % g.size ∨ y.1 = x.1 ∨ y.1 = (x.1 + 1) % g.size) ∧
      (y.2 = (x.2 - 1) % g.size ∨ y.2 = x.2 ∨ y.2 = (x.2 + 1) % g.size) := by
  simp [Grid.neighbours, Finset.mem_erase, Finset.mem_product, Finset.mem_insert,
    Finset.mem_singleton]

lemma mem_nbrsZ (x y : ℤ × ℤ) :
    y ∈ nbrsZ x ↔ y ≠ x ∧
      (y.1 = x.1 - 1 ∨ y.1 = x.1 ∨ y.1 = x.1 + 1) ∧
      (y.2 = x.2 - 1 ∨ y.2 = x.2 ∨ y.2 = x.2 + 1) := by
  simp [nbrsZ, Finset.mem_erase, Finset.mem_product, Finset.mem_insert,
    Finset.mem_singleton]

lemma tri_bounds (N a b : ℤ) (hN : 0 < N) (h0 : 0 ≤ a) (h1 : a < N)
    (h : b = (a - 1) % N ∨ b = a ∨ b = (a + 1) % N) : 0 ≤ b ∧ b < N := by
  rcases h with rfl | rfl | rfl
  · exact ⟨Int.emod_nonneg _ (by omega), Int.emod_lt_of_pos _ hN⟩
  · exact ⟨h0, h1⟩
  · exact ⟨Int.emod_nonneg _ (by omega), Int.emod_lt_of_pos _ hN⟩

/-- Neighbours of an in-range cell are in range. -/
lemma neighbours_inRange (g : Grid) (x : ℤ × ℤ) (hx : InRange g x) :
    ∀ y ∈ g.neighbours x, InRange g y := by
  obtain ⟨h1, h2, h3, h4⟩ := hx
  have hN : 0 < g.size := by omega
  intro y hy
  rw [mem_neighbours] at hy
  obtain ⟨-, hr, hc⟩ := hy
  have hb1 := tri_bounds g.size x.1 y.1 hN h1 h2 hr
  have hb2 := tri_bounds g.size x.2 y.2 hN h3 h4 hc
  exact ⟨hb1.1, hb1.2, hb2.1, hb2.2⟩

/-- Wrapped adjacency is symmetric on in-range cells. -/
lemma neighbours_symm (g : Grid) (x y : ℤ × ℤ) (hx : InRange g x) (hy : InRange g y)
    (h : y ∈ g.neighbours x) : x ∈ g.neighbours y := by
  obtain ⟨hx1, hx2, hx3, hx4⟩ := hx
  obtain ⟨hy1, hy2, hy3, hy4⟩ := hy
  rw [mem_neighbours] at h ⊢
  obtain ⟨hne, hr, hc⟩ := h
  rw [rowWrap_iff g.size x.1 y.1 hx1 hx2 hy1 hy2] at hr
  rw [rowWrap_iff g.size x.2 y.2 hx3 hx4 hy3 hy4] at hc
  refine ⟨Ne.symm hne, ?_, ?_⟩
  · rw [rowWrap_iff g.size y.1 x.1 hy1 hy2 hx1 hx2]; omega
  · rw [rowWrap_iff g.size y.2 x.2 hy3 hy4 hx3 hx4]; omega

/-- Away from the boundary the wrapped neighbourhood is the plain
Moore neighbourhood. -/
lemma neighbours_interior (g : Grid) (p : ℤ × ℤ)
    (h : 1 ≤ p.1 ∧ p.1 ≤ g.size - 2 ∧ 1 ≤ p.2 ∧ p.2 ≤ g.size - 2) :
    g.neighbours p = nbrsZ p := by
  obtain ⟨h1, h2, h3, h4⟩ := h
  unfold Grid.neighbours nbrsZ
  rw [Int.emod_eq_of_lt (show (0:ℤ) ≤ p.1 - 1 by omega) (show p.1 - 1 < g.size by omega),
    Int.emod_eq_of_lt (show (0:ℤ) ≤ p.1 + 1 by omega) (show p.1 + 1 < g.size by omega),
    Int.emod_eq_of_lt (show (0:ℤ) ≤ p.2 - 1 by omega) (show p.2 - 1 < g.size by omega),
    Int.emod_eq_of_lt (show (0:ℤ) ≤ p.2 + 1 by omega) (show p.2 + 1 < g.size by omega)]

/-- If all on cells sit strictly inside the grid, intersecting them with
a wrapped neighbourhood of an in-range cell is the same as with the
wrap-free neighbourhood. -/
lemma inter_nbrs_eq (g : Grid) (x : ℤ × ℤ) (hx : InRange g x)
    (hS : ∀ p ∈ g.on_cells, 1 ≤ p.1 ∧ p.1 ≤ g.size - 2 ∧ 1 ≤ p.2 ∧ p.2 ≤ g.size - 2) :
    g.on_cells ∩ g.neighbours x = g.on_cells ∩ nbrsZ x := by
  obtain ⟨hx1, hx2, hx3, hx4⟩ := hx
  ext y
  simp only [Finset.mem_inter]
  constructor
  · rintro ⟨h1, h2⟩
    refine ⟨h1, ?_⟩
    obtain ⟨hb1, hb2, hb3, hb4⟩ := hS y h1
    rw [mem_neighbours] at h2
    obtain ⟨hne, hr, hc⟩ := h2
    rw [rowWrap_iff g.size x.1 y.1 hx1 hx2 (by omega) (by omega)] at hr
    rw [rowWrap_iff g.size x.2 y.2 hx3 hx4 (by omega) (by omega)] at hc
    rw [mem_nbrsZ]
    exact ⟨hne, by omega, by omega⟩
  · rintro ⟨h1, h2⟩
    refine ⟨h1, ?_⟩
    obtain ⟨hb1, hb2, hb3, hb4⟩ := hS y h1
    rw [mem_nbrsZ] at h2
    obtain ⟨hne, hr, hc⟩ := h2
    rw [mem_neighbours]
    refine ⟨hne, ?_, ?_⟩
    · rw [rowWrap_iff g.size x.1 y.1 hx1 hx2 (by omega) (by omega)]; omega
    · rw [rowWrap_iff g.size x.2 y.2 hx3 hx4 (by omega) (by omega)]; omega

/-- On configurations kept strictly inside the grid, one `update` agrees
with the wrap-free step.  This reduces pattern claims (block, blinker),
which quantify over all sufficiently large sizes, to closed computations. -/
theorem update_eq_stepZ (g : Grid)
    (hS : ∀ p ∈ g.on_cells, 1 ≤ p.1 ∧ p.1 ≤ g.size - 2 ∧ 1 ≤ p.2 ∧ p.2 ≤ g.size - 2) :
    g.update.on_cells = stepZ g.on_cells := by
  have hnb : ∀ p ∈ g.on_cells, g.neighbours p = nbrsZ p :=
    fun p hp => neighbours_interior g p (hS p hp)
  have hsurv : g.on_cells.filter (fun cell =>
        (g.neighbours cell ∩ g.on_cells).card = 2 ∨
        (g.neighbours cell ∩ g.on_cells).card = 3) =
      g.on_cells.filter (fun cell =>
        (nbrsZ cell ∩ g.on_cells).card = 2 ∨ (nbrsZ cell ∩ g.on_cells).card = 3) :=
    Finset.filter_congr (fun c hc => by rw [hnb c hc])
  have hcand : (g.on_cells.biUnion (fun cell =>
        g.neighbours cell \ (g.neighbours cell ∩ g.on_cells))) =
      (g.on_cells.biUnion (fun cell => nbrsZ cell \ (nbrsZ cell ∩ g.on_cells))) :=
    Finset.biUnion_congr rfl (fun c hc => by rw [hnb c hc])
  have hbirth : ∀ c ∈ (g.on_cells.biUnion (fun cell =>
        nbrsZ cell \ (nbrsZ cell ∩ g.on_cells))),
      ((g.on_neighbours c).card = 3 ↔ (g.on_cells ∩ nbrsZ c).card = 3) := by
    intro c hc
    obtain ⟨y, hyS, hymem⟩ := Finset.mem_biUnion.mp hc
    obtain ⟨hb1, hb2, hb3, hb4⟩ := hS y hyS
    have hcz : c ∈ nbrsZ y := (Finset.mem_sdiff.mp hymem).1
    rw [mem_nbrsZ] at hcz
    obtain ⟨-, hcr, hcc⟩ := hcz
    have hcR : InRange g c := ⟨by omega, by omega, by omega, by omega⟩
    have he : g.on_neighbours c = g.on_cells ∩ nbrsZ c := inter_nbrs_eq g c hcR hS
    rw [he]
  have e : g.update.on_cells =
      g.on_cells.filter (fun cell =>
        (g.neighbours cell ∩ g.on_cells).card = 2 ∨
        (g.neighbours cell ∩ g.on_cells).card = 3) ∪
      (g.on_cells.biUnion (fun cell =>
        g.neighbours cell \ (g.neighbours cell ∩ g.on_cells))).filter (fun cell =>
        (g.on_neighbours cell).card = 3) := rfl
  rw [e, hsurv, hcand, Finset.filter_congr hbirth]
  rfl

/-- Unfolding of membership in the next generation, following the two
passes of `Grid.update` literally. -/
lemma mem_update_unfold (g : Grid) (x : ℤ × ℤ) :
    x ∈ g.update.on_cells ↔
      (x ∈ g.on_cells ∧
        ((g.neighbours x ∩ g.on_cells).card = 2 ∨ (g.neighbours x ∩ g.on_cells).card = 3)) ∨
      ((∃ y ∈ g.on_cells, x ∈ g.neighbours y ∧ x ∉ g.neighbours y ∩ g.on_cells) ∧
        (g.on_neighbours x).card = 3) := by
  constructor
  · intro h
    rcases Finset.mem_union.mp h with h1 | h2
    · exact Or.inl (Finset.mem_filter.mp h1)
    · obtain ⟨hmem, hcard⟩ := Finset.mem_filter.mp h2
      obtain ⟨y, hy, hxy⟩ := Finset.mem_biUnion.mp hmem
      obtain ⟨ha, hb⟩ := Finset.mem_sdiff.mp hxy
      exact Or.inr ⟨⟨y, hy, ha, hb⟩, hcard⟩
  · intro h
    rcases h with ⟨h1, h2⟩ | ⟨⟨y, hy, ha, hb⟩, hcard⟩
    · exact Finset.mem_union_left _ (Finset.mem_filter.mpr ⟨h1, h2⟩)
    · exact Finset.mem_union_right _ (Finset.mem_filter.mpr
        ⟨Finset.mem_biUnion.mpr ⟨y, hy, Finset.mem_sdiff.mpr ⟨ha, hb⟩⟩, hcard⟩)

/-- C1: for every grid and every state of `on_cells`, a cell of the grid
(coordinates in `[0, size)`, per the data model) is on after `update`
iff it was on with exactly 2 or 3 on-neighbours, or off with exactly 3
on-neighbours, all counts taken against the pre-update `on_cells`. -/
theorem mem_update_iff (g : Grid) (x : ℤ × ℤ) (hx : InRange g x) :
    x ∈ g.update.on_cells ↔
      (x ∈ g.on_cells ∧
        ((g.on_neighbours x).card = 2 ∨ (g.on_neighbours x).card = 3)) ∨
      (x ∉ g.on_cells ∧ (g.on_neighbours x).card = 3) := by
  have hcomm : g.neighbours x ∩ g.on_cells = g.on_neighbours x :=
    Finset.inter_comm _ _
  rw [mem_update_unfold]
  constructor
  · intro h
    rcases h with ⟨h1, h2⟩ | ⟨⟨y, hy, ha, hb⟩, hcard⟩
    · exact Or.inl ⟨h1, by rwa [hcomm] at h2⟩
    · refine Or.inr ⟨fun hxon => hb (Finset.mem_inter.mpr ⟨ha, hxon⟩), hcard⟩
  · intro h
    rcases h with ⟨h1, h2⟩ | ⟨h1, h2⟩
    · exact Or.inl ⟨h1, by rwa [hcomm]⟩
    · have hpos : 0 < (g.on_neighbours x).card := by omega
      obtain ⟨y, hy⟩ := Finset.card_pos.mp hpos
      have hy' : y ∈ g.on_cells ∧ y ∈ g.neighbours x := Finset.mem_inter.mp hy
      have hyR : InRange g y := neighbours_inRange g x hx y hy'.2
      have hxy : x ∈ g.neighbours y := neighbours_symm g x y hx hyR hy'.2
      refine Or.inr ⟨⟨y, hy'.1, hxy, fun hmem => h1 (Finset.mem_inter.mp hmem).2⟩, h2⟩

/-- C1 witness: the characterization evaluated on a concrete grid. -/
theorem mem_update_iff_witness :
    ((1, 1) ∈ (Grid.mk 3 {((0:ℤ), (0:ℤ))}).update.on_cells ↔
      ((1, 1) ∈ (Grid.mk 3 {((0:ℤ), (0:ℤ))}).on_cells ∧
        (((Grid.mk 3 {((0:ℤ), (0:ℤ))}).on_neighbours (1, 1)).card = 2 ∨
         ((Grid.mk 3 {((0:ℤ), (0:ℤ))}).on_neighbours (1, 1)).card = 3)) ∨
      ((1, 1) ∉ (Grid.mk 3 {((0:ℤ), (0:ℤ))}).on_cells ∧
        ((Grid.mk 3 {((0:ℤ), (0:ℤ))}).on_neighbours (1, 1)).card = 3)) :=
  mem_update_iff (Grid.mk 3 {((0:ℤ), (0:ℤ))}) (1, 1) (by decide)

/-- C2: for size `N ≥ 3`, `neighbours((0,0))` is exactly the eight
standard wrapped offsets `(N-1,N-1)`, `(N-1,0)`, `(N-1,1)`, `(0,N-1)`,
`(0,1)`, `(1,N-1)`, `(1,0)`, `(1,1)`; it never contains `(0,0)` and has
exactly 8 elements. -/
theorem neighbours_origin_wrap (g : Grid) (hN : 3 ≤ g.size) :
    g.neighbours (0, 0) =
      {(g.size - 1, g.size - 1), (g.size - 1, 0), (g.size - 1, 1), (0, g.size - 1),
       (0, 1), (1, g.size - 1), (1, 0), (1, 1)} ∧
    (0, 0) ∉ g.neighbours (0, 0) ∧ (g.neighbours (0, 0)).card = 8 := by
  have hm1 : (-1 : ℤ) % g.size = g.size - 1 := by
    have h : (-1 : ℤ) = (g.size - 1) + g.size * (-1) := by ring
    rw [h, Int.add_mul_emod_self_left, Int.emod_eq_of_lt (by omega) (by omega)]
  have h1 : (1 : ℤ) % g.size = 1 := Int.emod_eq_of_lt (by omega) (by omega)
  have e : g.neighbours (0, 0) =
      (({g.size - 1, 0, 1} : Finset ℤ) ×ˢ ({g.size - 1, 0, 1} : Finset ℤ)).erase (0, 0) := by
    unfold Grid.neighbours
    norm_num [hm1, h1]
  have hmem : ((0 : ℤ), (0 : ℤ)) ∈ (({g.size - 1, 0, 1} : Finset ℤ) ×ˢ
      ({g.size - 1, 0, 1} : Finset ℤ)) := by
    simp [Finset.mem_product]
  have hcard3 : ({g.size - 1, 0, 1} : Finset ℤ).card = 3 := by
    rw [Finset.card_insert_of_not_mem (by simp; omega),
      Finset.card_insert_of_not_mem (by simp), Finset.card_singleton]
  refine ⟨?_, ?_, ?_⟩
  · rw [e]
    ext ⟨a, b⟩
    simp only [Finset.mem_erase, Finset.mem_product, Finset.mem_insert,
      Finset.mem_singleton, Prod.mk.injEq, ne_eq, not_and]
    constructor
    · rintro ⟨hne, (rfl | rfl | rfl), (rfl | rfl | rfl)⟩ <;> omega
    · rintro (⟨rfl, rfl⟩ | ⟨rfl, rfl⟩ | ⟨rfl, rfl⟩ | ⟨rfl, rfl⟩ | ⟨rfl, rfl⟩ |
        ⟨rfl, rfl⟩ | ⟨rfl, rfl⟩ | ⟨rfl, rfl⟩) <;> omega
  · rw [e]
    exact Finset.not_mem_erase _ _
  · rw [e, Finset.card_erase_of_mem hmem, Finset.card_product, hcard3]

/-- C2 witness: the origin's wrapped neighbours on a size-7 grid. -/
theorem neighbours_origin_wrap_witness :
    (Grid.mk 7 ∅).neighbours (0, 0) =
      {((6:ℤ), (6:ℤ)), (6, 0), (6, 1), (0, 6), (0, 1), (1, 6), (1, 0), (1, 1)} ∧
    (0, 0) ∉ (Grid.mk 7 ∅).neighbours (0, 0) ∧
    ((Grid.mk 7 ∅).neighbours (0, 0)).card = 8 := by
  have h := neighbours_origin_wrap (Grid.mk 7 ∅) (by norm_num)
  norm_num at h ⊢
  exact h

/-- C3: on any grid of size ≥ 6, the blinker row `{(2,1),(2,2),(2,3)}`
becomes the column `{(1,2),(2,2),(3,2)}` after one `update`, and the
second `update` restores the original row. -/
theorem blinker_oscillates (g : Grid) (hN : 6 ≤ g.size)
    (hon : g.on_cells = {(2, 1), (2, 2), (2, 3)}) :
    g.update.on_cells = {(1, 2), (2, 2), (3, 2)} ∧
    g.update.update.on_cells = {(2, 1), (2, 2), (2, 3)} := by
  have hS1 : ∀ p ∈ g.on_cells, 1 ≤ p.1 ∧ p.1 ≤ g.size - 2 ∧ 1 ≤ p.2 ∧ p.2 ≤ g.size - 2 := by
    intro p hp
    rw [hon] at hp
    simp only [Finset.mem_insert, Finset.mem_singleton] at hp
    rcases hp with rfl | rfl | rfl <;> refine ⟨?_, ?_, ?_, ?_⟩ <;> simp <;> omega
  have h1 : g.update.on_cells = {(1, 2), (2, 2), (3, 2)} := by
    rw [update_eq_stepZ g hS1, hon]
    decide
  have hS2 : ∀ p ∈ g.update.on_cells,
      1 ≤ p.1 ∧ p.1 ≤ g.size - 2 ∧ 1 ≤ p.2 ∧ p.2 ≤ g.size - 2 := by
    intro p hp
    rw [h1] at hp
    simp only [Finset.mem_insert, Finset.mem_singleton] at hp
    rcases hp with rfl | rfl | rfl <;> refine ⟨?_, ?_, ?_, ?_⟩ <;> simp <;> omega
  refine ⟨h1, ?_⟩
  rw [update_eq_stepZ g.update hS2, h1]
  decide

/-- C3 witness: the blinker on a concrete size-6 grid. -/
theorem blinker_oscillates_witness :
    (Grid.mk 6 {((2:ℤ), (1:ℤ)), (2, 2), (2, 3)}).update.on_cells = {(1, 2), (2, 2), (3, 2)} ∧
    (Grid.mk 6 {((2:ℤ), (1:ℤ)), (2, 2), (2, 3)}).update.update.on_cells =
      {(2, 1), (2, 2), (2, 3)} :=
  blinker_oscillates (Grid.mk 6 {((2:ℤ), (1:ℤ)), (2, 2), (2, 3)}) (by norm_num) rfl

/-- C4: on any grid of size ≥ 5, the 2×2 block `{(1,1),(1,2),(2,1),(2,2)}`
is unchanged by `update`. -/
theorem block_still_life (g : Grid) (hN : 5 ≤ g.size)
    (hon : g.on_cells = {(1, 1), (1, 2), (2, 1), (2, 2)}) :
    g.update.on_cells = g.on_cells := by
  have hS1 : ∀ p ∈ g.on_cells, 1 ≤ p.1 ∧ p.1 ≤ g.size - 2 ∧ 1 ≤ p.2 ∧ p.2 ≤ g.size - 2 := by
    intro p hp
    rw [hon] at hp
    simp only [Finset.mem_insert, Finset.mem_singleton] at hp
    rcases hp with rfl | rfl | rfl | rfl <;> refine ⟨?_, ?_, ?_, ?_⟩ <;> simp <;> omega
  rw [update_eq_stepZ g hS1, hon]
  decide

/-- C4 witness: the block on a concrete size-5 grid. -/
theorem block_still_life_witness :
    (Grid.mk 5 {((1:ℤ), (1:ℤ)), (1, 2), (2, 1), (2, 2)}).update.on_cells =
      (Grid.mk 5 {((1:ℤ), (1:ℤ)), (1, 2), (2, 1), (2, 2)}).on_cells :=
  block_still_life (Grid.mk 5 {((1:ℤ), (1:ℤ)), (1, 2), (2, 1), (2, 2)}) (by norm_num) rfl

/-- C5: on a grid of size ≥ 1 whose on cells are all in range, the
in-range invariant is preserved by `update`, by `turn_off` with any
cells, and by `turn_on` with in-range cells; and `neighbours` of an
in-range cell yields only in-range coordinates. -/
theorem inRange_preserved (g : Grid) (hsz : 1 ≤ g.size)
    (hon : ∀ p ∈ g.on_cells, InRange g p) :
    (∀ p ∈ g.update.on_cells, InRange g p) ∧
    (∀ cs : Finset (ℤ × ℤ), ∀ p ∈ (g.turn_off cs).on_cells, InRange g p) ∧
    (∀ cs : Finset (ℤ × ℤ), (∀ c ∈ cs, InRange g c) →
      ∀ p ∈ (g.turn_on cs).on_cells, InRange g p) ∧
    (∀ x, InRange g x → ∀ y ∈ g.neighbours x, InRange g y) := by
  refine ⟨?_, ?_, ?_, fun x hx => neighbours_inRange g x hx⟩
  · intro p hp
    rcases Finset.mem_union.mp hp with h | h
    · exact hon p (Finset.mem_filter.mp h).1
    · obtain ⟨hmem, -⟩ := Finset.mem_filter.mp h
      obtain ⟨y, hy, hpy⟩ := Finset.mem_biUnion.mp hmem
      exact neighbours_inRange g y (hon y hy) p (Finset.mem_sdiff.mp hpy).1
  · intro cs p hp
    exact hon p (Finset.mem_sdiff.mp hp).1
  · intro cs hcs p hp
    rcases Finset.mem_union.mp hp with h | h
    · exact hon p h
    · exact hcs p h

/-- C5 witness: a neighbour of an in-range cell on a concrete grid is
in range. -/
theorem inRange_preserved_witness : InRange (Grid.mk 3 {((1:ℤ), (1:ℤ))}) (0, 0) :=
  (inRange_preserved (Grid.mk 3 {((1:ℤ), (1:ℤ))}) (by norm_num) (by decide)).2.2.2
    (1, 1) (by decide) (0, 0) (by decide)

/-- C6: on a grid of size 1 or 2, `neighbours` of an in-range cell never
contains the cell itself and has strictly fewer than 8 elements. -/
theorem degenerate_neighbours (g : Grid) (x : ℤ × ℤ)
    (hN : g.size = 1 ∨ g.size = 2) (hx : InRange g x) :
    x ∉ g.neighbours x ∧ (g.neighbours x).card < 8 := by
  obtain ⟨h1, h2, h3, h4⟩ := hx
  rcases x with ⟨a, b⟩
  rcases hN with h | h
  · have ha : a = 0 := by simp at h1 h2; omega
    have hb : b = 0 := by simp at h3 h4; omega
    subst ha hb
    have e : g.neighbours (0, 0) = (Grid.mk 1 ∅).neighbours (0, 0) := by
      simp [Grid.neighbours, h]
    rw [e]
    decide
  · have ha : a = 0 ∨ a = 1 := by simp at h1 h2; omega
    have hb : b = 0 ∨ b = 1 := by simp at h3 h4; omega
    have e : ∀ c : ℤ × ℤ, g.neighbours c = (Grid.mk 2 ∅).neighbours c := by
      intro c
      simp [Grid.neighbours, h]
    rcases ha with rfl | rfl <;> rcases hb with rfl | rfl <;> rw [e] <;> decide

/-- C6 witness: the degenerate neighbour counts at a concrete cell of a
size-2 grid. -/
theorem degenerate_neighbours_witness :
    (0, 1) ∉ (Grid.mk 2 ∅).neighbours (0, 1) ∧
    ((Grid.mk 2 ∅).neighbours ((0:ℤ), (1:ℤ))).card < 8 :=
  degenerate_neighbours (Grid.mk 2 ∅) (0, 1) (Or.inr rfl) (by decide)

/-- C7: `update` on a grid with empty `on_cells` leaves `on_cells`
empty. -/
theorem update_empty_fixed (g : Grid) (h : g.on_cells = ∅) :
    g.update.on_cells = ∅ := by
  simp [Grid.update, h]

/-- C7 witness: `update` of a concrete empty grid. -/
theorem update_empty_fixed_witness : (Grid.mk 5 ∅).update.on_cells = ∅ :=
  update_empty_fixed (Grid.mk 5 ∅) rfl

/-- C8: `turn_on` is set union and `turn_off` is set difference; hence
activating an already-on cell and deactivating an already-off cell both
leave `on_cells` unchanged. -/
theorem activate_deactivate_spec (g : Grid) (cells : Finset (ℤ × ℤ)) (c d : ℤ × ℤ) :
    (g.turn_on cells).on_cells = g.on_cells ∪ cells ∧
    (g.turn_off cells).on_cells = g.on_cells \ cells ∧
    (c ∈ g.on_cells → (g.turn_on {c}).on_cells = g.on_cells) ∧
    (d ∉ g.on_cells → (g.turn_off {d}).on_cells = g.on_cells) := by
  refine ⟨rfl, rfl, fun hc => ?_, fun hd => ?_⟩
  · show g.on_cells ∪ {c} = g.on_cells
    exact Finset.union_eq_left.mpr (Finset.singleton_subset_iff.mpr hc)
  · show g.on_cells \ {d} = g.on_cells
    exact Finset.sdiff_eq_self_of_disjoint (Finset.disjoint_singleton_right.mpr hd)

/-- C8 witness: idempotent activation and vacuous deactivation on a
concrete grid. -/
theorem activate_deactivate_spec_witness :
    ((Grid.mk 3 {((0:ℤ), (0:ℤ))}).turn_on {((0:ℤ), (0:ℤ))}).on_cells =
      (Grid.mk 3 {((0:ℤ), (0:ℤ))}).on_cells ∧
    ((Grid.mk 3 {((0:ℤ), (0:ℤ))}).turn_off {((1:ℤ), (1:ℤ))}).on_cells =
      (Grid.mk 3 {((0:ℤ), (0:ℤ))}).on_cells :=
  ⟨(activate_deactivate_spec (Grid.mk 3 {((0:ℤ), (0:ℤ))}) ∅ (0, 0) (1, 1)).2.2.1 (by decide),
   (activate_deactivate_spec (Grid.mk 3 {((0:ℤ), (0:ℤ))}) ∅ (0, 0) (1, 1)).2.2.2 (by decide)⟩

/-- C9: `turn_on`, `turn_off` and `update` never change `size`; only
`on_cells` is modified. -/
theorem size_never_mutated (g : Grid) (cells : Finset (ℤ × ℤ)) :
    (g.turn_on cells).size = g.size ∧ (g.turn_off cells).size = g.size ∧
    g.update.size = g.size :=
  ⟨rfl, rfl, rfl⟩

/-- C10: on a size-1 grid, `neighbours((0,0))` is empty, and `update`
empties `on_cells` from any in-range state. -/
theorem size_one_collapse (S : Finset (ℤ × ℤ))
    (hS : ∀ p ∈ S, InRange (Grid.mk 1 S) p) :
    (Grid.mk 1 S).neighbours (0, 0) = ∅ ∧ (Grid.mk 1 S).update.on_cells = ∅ := by
  have hsub : S ⊆ {((0:ℤ), (0:ℤ))} := by
    intro p hp
    obtain ⟨a1, a2, a3, a4⟩ := hS p hp
    simp only [Finset.mem_singleton]
    rcases p with ⟨a, b⟩
    simp only at a1 a2 a3 a4
    have : a = 0 ∧ b = 0 := by omega
    simp [this.1, this.2]
  rcases Finset.subset_singleton_iff.mp hsub with rfl | rfl
  · exact ⟨by decide, by decide⟩
  · exact ⟨by decide, by decide⟩

/-- C10 witness: the fully-on size-1 grid dies out. -/
theorem size_one_collapse_witness :
    (Grid.mk 1 {((0:ℤ), (0:ℤ))}).neighbours (0, 0) = ∅ ∧
    (Grid.mk 1 {((0:ℤ), (0:ℤ))}).update.on_cells = ∅ :=
  size_one_collapse {((0:ℤ), (0:ℤ))} (by decide)

end Life
